import Mathlib

set_option maxRecDepth 100000

/-!
Verification development for the spring-break-2026 server (Node/Express).

The repository holds several near-duplicate server variants:
  - src/server.js, first half  : GitHub-backed comments store, script-stripping sanitizer
  - src/server.js, second half : GitHub-backed comments store with /api/comments/init,
                                 angle-bracket-encoding sanitizer
  - src/unnamed/part_000       : local-file-backed comments store, script-stripping sanitizer
  - src/unnamed/part_001       : local-file-backed comments store with length validation,
                                 rate limits and the angle-bracket-encoding sanitizer

This file gives a shallow embedding of the data model and the operations of those
variants and settles the frozen claims against it.  JavaScript strings are modelled
as Lean String (the inputs of interest are ASCII, where UTF-16 length and code-point
length agree); JavaScript numbers that matter here are integers and are modelled as
Int/Nat.  NaN produced by subtracting non-numeric strings is modelled with Option Int
(none = NaN).
-/

namespace SpringBreak

/-- A stored comment record, per the shape built in every POST /api/comments handler:
id, name, text, created_at (an ISO-8601 string produced by new Date().toISOString()). -/
structure Comment where
  id : String
  name : String
  text : String
  created_at : String
deriving DecidableEq, Repr

/-! ### Sanitizers

src/server.js (second half) and src/unnamed/part_001 replace every < by the
entity lt and every > by the entity gt.  src/server.js (first half) and
src/unnamed/part_000 instead delete the matches of /<\s*script/ig and then of
/<\/\s*script/ig, replacing them with the empty string.
-/

/-- Global single-character replacement: every occurrence of c is replaced by the
string r (as a character list).  Models String.prototype.replace with a /c/g regex. -/
def replChar (c : Char) (r : List Char) : List Char → List Char
  | [] => []
  | x :: xs => (if x = c then r else [x]) ++ replChar c r xs

/-- The encoding sanitizer of src/unnamed/part_001 (lines 311-314) and the second
src/server.js variant (lines 445-448): replace every angle bracket with its entity. -/
def sanitizeEncode (s : String) : String :=
  String.mk (replChar '>' "&gt;".data (replChar '<' "&lt;".data s.data))

/-- Case-insensitive match of the fixed word script at the head of a character list;
returns the rest of the list after the word on success. -/
def matchScriptWord (cs : List Char) : Option (List Char) :=
  match cs with
  | s :: c :: r :: i :: p :: t :: rest =>
      if s.toLower = 's' ∧ c.toLower = 'c' ∧ r.toLower = 'r' ∧ i.toLower = 'i'
          ∧ p.toLower = 'p' ∧ t.toLower = 't' then some rest else none
  | _ => none

/-- Whitespace class of the regexes involved (ASCII part of JavaScript \s). -/
def isJsWs (c : Char) : Bool :=
  c = ' ' || c = '\t' || c = '\n' || c = '\r'

/-- Attempt to match the regex <\s*script (case-insensitive) at the head of the list;
returns the rest after the match. -/
def matchOpenScript (cs : List Char) : Option (List Char) :=
  match cs with
  | '<' :: rest => matchScriptWord (rest.dropWhile isJsWs)
  | _ => none

/-- Attempt to match the regex <\/\s*script (case-insensitive) at the head of the list. -/
def matchCloseScript (cs : List Char) : Option (List Char) :=
  match cs with
  | '<' :: '/' :: rest => matchScriptWord (rest.dropWhile isJsWs)
  | _ => none

/-- Left-to-right global removal of a pattern: at each position try the matcher; on a
match drop the matched span and continue after it (the output is not re-scanned,
exactly like String.prototype.replace with an empty replacement).  Fuel bounds the
scan; callers pass the input length, which always suffices since a match consumes at
least one character. -/
def removeAllMatches (try0 : List Char → Option (List Char)) : Nat → List Char → List Char
  | 0, cs => cs
  | _ + 1, [] => []
  | fuel + 1, x :: xs =>
      match try0 (x :: xs) with
      | some rest => removeAllMatches try0 fuel rest
      | none => x :: removeAllMatches try0 fuel xs

/-- The script-stripping sanitizer of src/server.js (first half, lines 258-260) and
src/unnamed/part_000 (lines 273-275): delete the spans matching /<\s*script/ig, then
those matching /<\/\s*script/ig.  Other characters, including bare angle brackets,
pass through unchanged. -/
def sanitizeStrip (s : String) : String :=
  let step1 := removeAllMatches matchOpenScript s.data.length s.data
  String.mk (removeAllMatches matchCloseScript step1.length step1)

/-! ### GET /api/comments sort

Every GET handler responds with
  list.sort((a, b) => (b.created_at || 0) - (a.created_at || 0)).
created_at is an ISO-8601 string, so the subtraction coerces both sides with
ToNumber.  We model ToNumber of the strings of interest with strToNumJs: a pure
optional-sign digit string converts to that integer, anything else (in particular
every ISO-8601 timestamp, which contains '-' and ':') is NaN, modelled as none.
Per the ECMAScript SortCompare operation, a comparator result of NaN is treated as
+0, and Array.prototype.sort is required to be stable; we therefore model the sort
as a stable insertion sort over the resulting preorder. -/

/-- Value of a digit run, most significant first. -/
def decDigitsVal (ds : List Char) : Nat :=
  ds.foldl (fun n c => n * 10 + (c.toNat - '0'.toNat)) 0

/-- ToNumber of a string, restricted to the shapes that matter here: an
optional-sign non-empty digit string is that integer, everything else is NaN
(none). -/
def strToNumJs (s : String) : Option Int :=
  let p : Bool × List Char :=
    match s.data with
    | '-' :: rest => (true, rest)
    | cs => (false, cs)
  if p.2 ≠ [] ∧ p.2.all Char.isDigit then
    some (if p.1 then -(decDigitsVal p.2 : Int) else (decDigitsVal p.2 : Int))
  else none

/-- ToNumber of (created_at || 0): the empty string is falsy so the fallback 0 is
taken; otherwise the string itself is converted (none = NaN). -/
def jsToNumOfCreated (s : String) : Option Int :=
  if s = "" then some 0 else strToNumJs s

/-- The comparator value the handler passes to sort, with NaN collapsed to 0 the way
ECMAScript SortCompare does. -/
def sortCompareJS (a b : Comment) : Int :=
  match jsToNumOfCreated b.created_at, jsToNumOfCreated a.created_at with
  | some x, some y => x - y
  | _, _ => 0

/-- Element a stays left of element b exactly when the comparator does not order b
strictly first. -/
def jsLeB (a b : Comment) : Bool :=
  decide (sortCompareJS a b ≤ 0)

/-- Stable insertion of x into a list: x lands before the first y it may precede. -/
def orderedInsertB (le : Comment → Comment → Bool) (x : Comment) : List Comment → List Comment
  | [] => [x]
  | y :: ys => if le x y then x :: y :: ys else y :: orderedInsertB le x ys

/-- Stable insertion sort (the observable behaviour ECMAScript requires of
Array.prototype.sort for a consistent comparator). -/
def insertionSortB (le : Comment → Comment → Bool) : List Comment → List Comment
  | [] => []
  | x :: xs => orderedInsertB le x (insertionSortB le xs)

/-- The body of every GET /api/comments handler: the stored list run through the
comparator above. -/
def getCommentsResponse (stored : List Comment) : List Comment :=
  insertionSortB jsLeB stored

/-- Lexicographic comparison of character lists by code point, at-most. -/
def charListLe : List Char → List Char → Bool
  | [], _ => true
  | _ :: _, [] => false
  | a :: as, b :: bs =>
      if a.toNat < b.toNat then true
      else if b.toNat < a.toNat then false
      else charListLe as bs

/-- Lexicographic string order; on ISO-8601 timestamps of equal shape this is the
chronological order. -/
def strLe (a b : String) : Bool :=
  charListLe a.data b.data

/-- The order the spec demands of the list response: created_at descending. -/
def SortedByCreatedAtDesc (l : List Comment) : Prop :=
  List.Pairwise (fun a b => strLe b.created_at a.created_at = true) l

instance (l : List Comment) : Decidable (SortedByCreatedAtDesc l) := by
  unfold SortedByCreatedAtDesc
  infer_instance

/-! ### POST /api/comments (GitHub-backed variants, src/server.js)

Both halves of src/server.js build
  item = [id: srv_ + Date.now(), name: sanitize(name), text: sanitize(text),
          created_at: new Date().toISOString()]
and store [item].concat(current).slice(0, 2000).  The second half uses the encoding
sanitizer; the first half uses the script-stripping one. -/

/-- The item the second src/server.js variant builds (lines 487-492). -/
def mkServerItem (nowMs : Nat) (nowIso name text : String) : Comment :=
  { id := "srv_" ++ toString nowMs
    name := sanitizeEncode name
    text := sanitizeEncode text
    created_at := nowIso }

/-- The candidate collection the second src/server.js POST handler computes from the
list it read (line 494): prepend the new item and cap at 2000 records. -/
def postMutation (current : List Comment) (nowMs : Nat) (nowIso name text : String) :
    List Comment :=
  (mkServerItem nowMs nowIso name text :: current).take 2000

/-- The item of the first src/server.js variant (lines 149-154), whose sanitize only
strips script-tag prefixes. -/
def mkServerItemV1 (nowMs : Nat) (nowIso name text : String) : Comment :=
  { id := "srv_" ++ toString nowMs
    name := sanitizeStrip name
    text := sanitizeStrip text
    created_at := nowIso }

/-- The candidate collection of the first src/server.js POST handler (line 156). -/
def postMutationV1 (current : List Comment) (nowMs : Nat) (nowIso name text : String) :
    List Comment :=
  (mkServerItemV1 nowMs nowIso name text :: current).take 2000

/-- JavaScript String.prototype.trim over the ASCII whitespace involved here:
drop leading and trailing whitespace characters. -/
def jsTrim (s : String) : String :=
  String.mk (((s.data.dropWhile isJsWs).reverse.dropWhile isJsWs).reverse)

/-- Validation of the GitHub-backed POST handlers (src/server.js lines 138-144 and
476-482): trim name and text and reject with 400 only when either is empty.  There
is no length check in these handlers. -/
def ghPostValidate (rawName rawText : String) : Option (String × String) :=
  let name := jsTrim rawName
  let text := jsTrim rawText
  if name = "" ∨ text = "" then none else some (name, text)

/-- The GitHub-backed POST handler up to the store write: 400 leaves the collection
alone, otherwise the mutated candidate is saved and 201 returned with the item. -/
def ghPostHandler (rawName rawText : String) (current : List Comment)
    (nowMs : Nat) (nowIso : String) : Nat × List Comment :=
  match ghPostValidate rawName rawText with
  | none => (400, current)
  | some (name, text) => (201, postMutation current nowMs nowIso name text)

/-! ### DELETE /api/comments/:id

All variants share the same body: keep the records whose id differs, answer 404 with
no write when nothing was removed, otherwise persist the filtered list and answer
204 (src/server.js lines 168-183 and 511-531, src/unnamed/part_001 lines 170-179). -/

/-- The delete handler: some next means the filtered list is written and 204 sent;
none means 404 with no write.  The filtered list stands for the next variable of
the source. -/
def deleteHandler (current : List Comment) (id : String) : Option (List Comment) :=
  if (current.filter (fun c => c.id ≠ id)).length = current.length then none
  else some (current.filter (fun c => c.id ≠ id))

/-! ### POST /api/comments (file-backed variant with validation, src/unnamed/part_001)

This variant trims, rejects empty fields, then rejects name.length > 100 and
text.length > 1000, all before loadComments or saveComments run (lines 133-158).
Its item id is Date.now().toString() (no prefix) and it uses the encoding
sanitizer. -/

/-- Validation of src/unnamed/part_001 lines 134-147, returning the error message of
the 400 response or the trimmed fields. -/
def localPostValidate (rawName rawText : String) : Except String (String × String) :=
  let name := jsTrim rawName
  let text := jsTrim rawText
  if name = "" ∨ text = "" then .error "name and comment text are required"
  else if name.length > 100 then .error "name must be 100 characters or less"
  else if text.length > 1000 then .error "comment text must be 1000 characters or less"
  else .ok (name, text)

/-- The item built by src/unnamed/part_001 lines 149-154. -/
def mkLocalItem (nowMs : Nat) (nowIso name text : String) : Comment :=
  { id := toString nowMs
    name := sanitizeEncode name
    text := sanitizeEncode text
    created_at := nowIso }

/-- The part_001 POST handler through validation: the store list is consulted only in
the accepted branch, mirroring the code order (validation precedes loadComments). -/
def localPostHandler (rawName rawText : String) (store : List Comment)
    (nowMs : Nat) (nowIso : String) : Nat × List Comment :=
  match localPostValidate rawName rawText with
  | .error _ => (400, store)
  | .ok (name, text) => (201, mkLocalItem nowMs nowIso name text :: store)

/-! ### Local-file store state (src/unnamed/part_000 lines 40-81, part_001 lines 75-123)

The variants keep a module-level commentsCache and a file.  saveComments first
installs the new list into the cache, then waits out the writing flag, then writes
the file inside try/catch whose catch only logs; the function itself never throws.
We model the state as cache plus parsed file contents, and a disk write that the
environment may fail (diskOk = false); the returned Option String is the error the
caller would see (always none). -/

structure LocalState where
  cache : Option (List Comment)
  file : List Comment
deriving DecidableEq, Repr

/-- loadComments (part_001 lines 92-104): the cache when present, otherwise the file
contents (ensureStore and parse failures both end in a list; the parsed list is the
model of the file bytes). -/
def loadComments (st : LocalState) : List Comment :=
  match st.cache with
  | some l => l
  | none => st.file

/-- saveComments (part_000 lines 68-81, part_001 lines 107-123): the cache is set to
the new list before the disk write is attempted; a failed write (diskOk = false) is
only logged, so the file keeps its old contents and no error reaches the caller. -/
def saveComments (st : LocalState) (newList : List Comment) (diskOk : Bool) :
    LocalState × Option String :=
  let st1 : LocalState := { st with cache := some newList }
  let st2 : LocalState := if diskOk then { st1 with file := newList } else st1
  (st2, none)

/-- The part_001 POST handler through saveComments, with the environment choice of
whether the disk write succeeds.  Result: HTTP status and the new state. -/
def localPostFull (rawName rawText : String) (st : LocalState) (diskOk : Bool)
    (nowMs : Nat) (nowIso : String) : Nat × LocalState :=
  match localPostValidate rawName rawText with
  | .error _ => (400, st)
  | .ok (name, text) =>
      let item := mkLocalItem nowMs nowIso name text
      let list := loadComments st
      let saved := saveComments st (item :: list) diskOk
      (201, saved.1)

/-- The part_001 DELETE handler through saveComments. -/
def localDeleteFull (id : String) (st : LocalState) (diskOk : Bool) : Nat × LocalState :=
  let list := loadComments st
  let next := list.filter (fun c => c.id ≠ id)
  if next.length = list.length then (404, st)
  else
    let saved := saveComments st next diskOk
    (204, saved.1)

/-! ### Remote (GitHub contents API) store model

The backing store keeps one file; reads return its contents together with a sha,
the opaque content-version token, and writes must present the sha of the contents
they read (or no sha for a create).  We store the parsed list as the file contents
(the bytes are its JSON serialization) and model the sha as a counter that changes
on every write, which preserves exactly the equality structure the code uses.  The
HTTP statuses are the ones the GitHub contents API produces and the code inspects:
404 missing file, 409 sha mismatch on update, 422 create against an existing file. -/

structure GhFile where
  content : List Comment
  sha : Nat
deriving DecidableEq, Repr

structure Remote where
  file : Option GhFile
  nextSha : Nat
deriving DecidableEq, Repr

/-- An error thrown by the HTTP client: the response status when a response exists
(err.response.status), none for a network-level failure with no response. -/
structure GhErr where
  status : Option Nat
deriving DecidableEq, Repr

/-- githubGetFile: the file with its sha, or a 404 error. -/
def githubGetFile (r : Remote) : Except GhErr GhFile :=
  match r.file with
  | some f => .ok f
  | none => .error ⟨some 404⟩

/-- githubPutFile: create when no sha is supplied, update when the supplied sha
matches the stored one; version conflicts surface as 409 (stale sha) or 422
(create raced with an existing file), an update of a vanished file as 404. -/
def githubPutFile (r : Remote) (newContent : List Comment) (sha : Option Nat) :
    Except GhErr Remote :=
  match r.file, sha with
  | none, none => .ok ⟨some ⟨newContent, r.nextSha⟩, r.nextSha + 1⟩
  | none, some _ => .error ⟨some 404⟩
  | some _, none => .error ⟨some 422⟩
  | some f, some s =>
      if s = f.sha then .ok ⟨some ⟨newContent, r.nextSha⟩, r.nextSha + 1⟩
      else .error ⟨some 409⟩

/-- readCommentsFromGitHub (src/server.js lines 85-99 and 363-378): fetch the file
and decode it; a 404 is caught and turned into the empty list with a null sha, every
other error is rethrown. -/
def readCommentsFromGitHub (r : Remote) : Except GhErr (List Comment × Option Nat) :=
  match githubGetFile r with
  | .ok f => .ok (f.content, some f.sha)
  | .error e => if e.status = some 404 then .ok ([], none) else .error e

/-- One attempt of saveCommentsToGitHub (src/server.js lines 105-121 and 387-412):
re-read only to obtain the current sha, then put the serialization of the list the
caller passed in, with that sha.  The freshly read list is discarded - the written
candidate is the caller argument, whatever the fresh read returned. -/
def saveAttempt (r : Remote) (list : List Comment) : Except GhErr Remote :=
  match readCommentsFromGitHub r with
  | .error e => .error e
  | .ok (_, shaOpt) => githubPutFile r list shaOpt

/-- The result of GET /api/comments/init, per initializeCommentsFileIfMissing. -/
structure InitResult where
  created : Bool
  reason : String
deriving DecidableEq, Repr

/-- initializeCommentsFileIfMissing (src/server.js lines 419-442): read through
readCommentsFromGitHub; the list branch reports file exists, the catch branch
handles 404 by creating an empty file when a token is configured.  Returns the new
remote state with the reported result. -/
def initializeCommentsFileIfMissing (tokenConfigured : Bool) (r : Remote) :
    Remote × InitResult :=
  match readCommentsFromGitHub r with
  | .ok _ => (r, ⟨false, "file exists"⟩)
  | .error e =>
      if e.status = some 404 then
        if tokenConfigured then
          match githubPutFile r [] none with
          | .ok r2 => (r2, ⟨true, "created file"⟩)
          | .error _ => (r, ⟨false, "failed to create file"⟩)
        else (r, ⟨false, "GITHUB_TOKEN not configured"⟩)
      else (r, ⟨false, "unexpected error"⟩)

/-! ### The retry loop of saveCommentsToGitHub

for (attempt = 0; attempt < maxAttempts; attempt++) [ try [ read sha; put ] catch
(err) [ if status is 409 or 422: sleep 200*(attempt+1), continue; else throw ] ];
throw exhausted - with maxAttempts = 4 in both src/server.js halves.  We embed the
control flow over the outcomes the environment (the remote store plus concurrent
writers) hands to attempts 0, 1, 2, 3, which keeps every path of the loop,
including the sleeps, explicit. -/

/-- Outcome of one attempt: both steps succeeded (the serialization of the caller
list was stored), or some step threw the recorded error. -/
inductive AttemptOut where
  | ok
  | err (e : GhErr)
deriving DecidableEq, Repr

/-- The status test of the catch block: err.response.status is 409 or 422. -/
def isConflictB (e : GhErr) : Bool :=
  e.status = some 409 || e.status = some 422

/-- Did the attempt end in an error the catch block treats as a conflict. -/
def isConflO : AttemptOut → Bool
  | .ok => false
  | .err e => isConflictB e

/-- What the loop ends in: success after n attempts, an immediately rethrown error
after n attempts, or the exhausted-retries error once the iteration budget is
consumed by conflicts. -/
inductive SaveOut where
  | success (attemptsMade : Nat)
  | thrown (attemptsMade : Nat) (e : GhErr)
  | exhausted
deriving DecidableEq, Repr

/-- The loop over the remaining attempt outcomes; made counts finished attempts. -/
def saveGo (made : Nat) : List AttemptOut → SaveOut
  | [] => .exhausted
  | o :: rest =>
      match o with
      | .ok => .success (made + 1)
      | .err e => if isConflictB e then saveGo (made + 1) rest else .thrown (made + 1) e

/-- saveCommentsToGitHub: the loop run over the outcomes of its four attempts. -/
def saveCommentsLoop (o0 o1 o2 o3 : AttemptOut) : SaveOut :=
  saveGo 0 [o0, o1, o2, o3]

/-- The sleeps the loop performs, in order: 200*(attempt+1) after every conflicting
attempt (the code sleeps before re-checking the loop condition, so also after a
conflict on the final attempt). -/
def sleepsGo (attempt : Nat) : List AttemptOut → List Nat
  | [] => []
  | o :: rest =>
      match o with
      | .ok => []
      | .err e =>
          if isConflictB e then 200 * (attempt + 1) :: sleepsGo (attempt + 1) rest
          else []

/-- The sleep trace of a full saveCommentsToGitHub call. -/
def saveSleeps (o0 o1 o2 o3 : AttemptOut) : List Nat :=
  sleepsGo 0 [o0, o1, o2, o3]

/-! ### JSON values and the Gemini response normalizer (src/server.js lines 224-254)

The provider response body is an arbitrary decoded JSON value.  Numbers are
restricted to integers in the model: the parser rejects fractional and exponent
forms rather than misreading them, which keeps floating point out of the embedding;
no claim involves non-integer numbers. -/

inductive JSVal where
  | null
  | bool (b : Bool)
  | num (n : Int)
  | str (s : String)
  | arr (elems : List JSVal)
  | obj (fields : List (String × JSVal))

/-- JavaScript truthiness of a decoded JSON value (undefined is modelled by the
absence of an Option value at use sites). -/
def jsTruthy : JSVal → Bool
  | .null => false
  | .bool b => b
  | .num n => n ≠ 0
  | .str s => s ≠ ""
  | .arr _ => true
  | .obj _ => true

/-- Is the value an array (Array.isArray). -/
def isArrJS : JSVal → Bool
  | .arr _ => true
  | _ => false

/-- Property access v.k: none (undefined) unless v is an object with the key; for a
duplicate key JSON.parse keeps the last binding, so the lookup takes the last. -/
def getField (v : JSVal) (k : String) : Option JSVal :=
  match v with
  | .obj fields => fields.reverse.lookup k
  | _ => none

/-- String() coercion, depth-bounded (the wrapper always passes enough fuel):
arrays join their elements with commas, null elements become empty, objects print
as object tags - the behaviour JSON.parse-produced values show under ToString. -/
def jsToStringF : Nat → JSVal → String
  | 0, _ => ""
  | fuel + 1, v =>
      match v with
      | .null => "null"
      | .bool true => "true"
      | .bool false => "false"
      | .num n => toString n
      | .str s => s
      | .arr l =>
          String.intercalate "," (l.map (fun e =>
            match e with
            | .null => ""
            | e2 => jsToStringF fuel e2))
      | .obj _ => "[object Object]"

/-- String() coercion of a decoded JSON value.  The fixed fuel bounds the nesting
depth handled; it far exceeds the depth of any value in this development and is a
pure artefact of the encoding. -/
def jsToString (v : JSVal) : String :=
  jsToStringF 1000 v

/-- Escape one character for a JSON string literal (the characters arising here). -/
def jsonEscChar (c : Char) : String :=
  if c = '"' then "\\\""
  else if c = '\\' then "\\\\"
  else if c = '\n' then "\\n"
  else if c = '\t' then "\\t"
  else if c = '\r' then "\\r"
  else String.mk [c]

/-- Quote a string as a JSON string literal. -/
def jsonQuote (s : String) : String :=
  "\"" ++ String.join (s.data.map jsonEscChar) ++ "\""

/-- JSON.stringify, depth-bounded (the wrapper always passes enough fuel). -/
def jsonStringifyF : Nat → JSVal → String
  | 0, _ => ""
  | fuel + 1, v =>
      match v with
      | .null => "null"
      | .bool true => "true"
      | .bool false => "false"
      | .num n => toString n
      | .str s => jsonQuote s
      | .arr l =>
          "[" ++ String.intercalate "," (l.map (jsonStringifyF fuel)) ++ "]"
      | .obj fields =>
          "\x7b" ++
            String.intercalate ","
              (fields.map (fun kv => jsonQuote kv.1 ++ ":" ++ jsonStringifyF fuel kv.2)) ++
          "\x7d"

/-- JSON.stringify of a decoded JSON value, with the same depth-fuel artefact as
jsToString. -/
def jsonStringify (v : JSVal) : String :=
  jsonStringifyF 1000 v

/-! #### A small JSON parser, modelling JSON.parse

Recursive descent over the character list, with fuel (callers pass twice the input
length plus a constant, which always suffices since every recursive step consumes
input).  JSON.parse succeeds only when the whole input, up to whitespace, is one
value; jsonParse enforces that. -/

/-- Whitespace insignificant in JSON. -/
def skipJsonWs (cs : List Char) : List Char :=
  cs.dropWhile (fun c => c = ' ' || c = '\t' || c = '\n' || c = '\r')

/-- Decimal digit value. -/
def digitVal (c : Char) : Nat := c.toNat - '0'.toNat

/-- Parse a run of digits into a natural number (left fold), with the rest. -/
def parseDigits : List Char → Nat → Option (Nat × List Char)
  | c :: cs, acc => if c.isDigit then parseDigits cs (acc * 10 + digitVal c) else some (acc, c :: cs)
  | [], acc => some (acc, [])

/-- Parse a JSON number restricted to integer forms; a following '.', 'e' or 'E'
makes the parse fail (rather than silently truncating a float). -/
def parseJsonNum (cs : List Char) : Option (Int × List Char) :=
  let (neg, cs1) := match cs with
    | '-' :: rest => (true, rest)
    | _ => (false, cs)
  match cs1 with
  | c :: _ =>
      if c.isDigit then
        match parseDigits cs1 0 with
        | some (n, rest) =>
            match rest with
            | '.' :: _ => none
            | 'e' :: _ => none
            | 'E' :: _ => none
            | _ => some (if neg then -(n : Int) else (n : Int), rest)
        | none => none
      else none
  | [] => none

/-- Parse the body of a JSON string literal after the opening quote, handling the
escapes \" \\ \/ \n \t \r \b \f (\\u is not needed by any input considered). -/
def parseJsonStringBody : Nat → List Char → List Char → Option (String × List Char)
  | 0, _, _ => none
  | _ + 1, _, [] => none
  | fuel + 1, acc, c :: cs =>
      if c = '"' then some (String.mk acc.reverse, cs)
      else if c = '\\' then
        match cs with
        | '"' :: rest => parseJsonStringBody fuel ('"' :: acc) rest
        | '\\' :: rest => parseJsonStringBody fuel ('\\' :: acc) rest
        | '/' :: rest => parseJsonStringBody fuel ('/' :: acc) rest
        | 'n' :: rest => parseJsonStringBody fuel ('\n' :: acc) rest
        | 't' :: rest => parseJsonStringBody fuel ('\t' :: acc) rest
        | 'r' :: rest => parseJsonStringBody fuel ('\r' :: acc) rest
        | 'b' :: rest => parseJsonStringBody fuel ('\x08' :: acc) rest
        | 'f' :: rest => parseJsonStringBody fuel ('\x0c' :: acc) rest
        | _ => none
      else parseJsonStringBody fuel (c :: acc) cs

/-- Expect a literal keyword at the head of the input. -/
def expectChars : List Char → List Char → Option (List Char)
  | [], cs => some cs
  | k :: ks, c :: cs => if c = k then expectChars ks cs else none
  | _ :: _, [] => none

mutual

/-- Parse one JSON value (leading whitespace allowed), returning it with the rest. -/
def parseJsonVal : Nat → List Char → Option (JSVal × List Char)
  | 0, _ => none
  | fuel + 1, cs =>
      match skipJsonWs cs with
      | [] => none
      | c :: rest =>
          if c = 'n' then (expectChars "ull".data rest).map (fun r => (JSVal.null, r))
          else if c = 't' then (expectChars "rue".data rest).map (fun r => (JSVal.bool true, r))
          else if c = 'f' then (expectChars "alse".data rest).map (fun r => (JSVal.bool false, r))
          else if c = '"' then
            (parseJsonStringBody (rest.length + 1) [] rest).map (fun p => (JSVal.str p.1, p.2))
          else if c = '[' then
            match skipJsonWs rest with
            | ']' :: r2 => some (JSVal.arr [], r2)
            | r2 => (parseJsonElems fuel r2).map (fun p => (JSVal.arr p.1, p.2))
          else if c = '\x7b' then
            match skipJsonWs rest with
            | '\x7d' :: r2 => some (JSVal.obj [], r2)
            | r2 => (parseJsonFields fuel r2).map (fun p => (JSVal.obj p.1, p.2))
          else
            (parseJsonNum (c :: rest)).map (fun p => (JSVal.num p.1, p.2))

/-- Parse one or more comma-separated array elements up to the closing bracket. -/
def parseJsonElems : Nat → List Char → Option (List JSVal × List Char)
  | 0, _ => none
  | fuel + 1, cs =>
      match parseJsonVal fuel cs with
      | none => none
      | some (v, rest) =>
          match skipJsonWs rest with
          | ']' :: r2 => some ([v], r2)
          | ',' :: r2 =>
              (parseJsonElems fuel r2).map (fun p => (v :: p.1, p.2))
          | _ => none

/-- Parse one or more comma-separated object members up to the closing brace. -/
def parseJsonFields : Nat → List Char → Option (List (String × JSVal) × List Char)
  | 0, _ => none
  | fuel + 1, cs =>
      match skipJsonWs cs with
      | '"' :: rest =>
          match parseJsonStringBody (rest.length + 1) [] rest with
          | none => none
          | some (key, r1) =>
              match skipJsonWs r1 with
              | ':' :: r2 =>
                  match parseJsonVal fuel r2 with
                  | none => none
                  | some (v, r3) =>
                      match skipJsonWs r3 with
                      | '\x7d' :: r4 => some ([(key, v)], r4)
                      | ',' :: r4 =>
                          (parseJsonFields fuel r4).map (fun p => ((key, v) :: p.1, p.2))
                      | _ => none
              | _ => none
      | _ => none

end

/-- JSON.parse: the whole input, up to trailing whitespace, must be one value. -/
def jsonParse (s : String) : Option JSVal :=
  match parseJsonVal (2 * s.data.length + 8) s.data with
  | some (v, rest) => if skipJsonWs rest = [] then some v else none
  | none => none

/-! #### The normalizer of callGemini (src/server.js lines 227-254) -/

/-- One candidate of the candidates array: String(c.output || c). -/
def candidateText (c : JSVal) : String :=
  jsToString (match getField c "output" with
    | some v => if jsTruthy v then v else c
    | none => c)

/-- The textCandidates list: [data.output_text, data.output, data.text, the joined
candidates array or null, JSON.stringify(data)].filter(Boolean), each kept entry
coerced to text the way the later JSON.parse / String(txt) uses do. -/
def textCandidates (data : JSVal) : List String :=
  let rawCands : List (Option JSVal) :=
    [ getField data "output_text",
      getField data "output",
      getField data "text",
      (match getField data "candidates" with
        | some (.arr cs) =>
            some (JSVal.str (String.intercalate "\n" (cs.map candidateText)))
        | _ => none),
      some (JSVal.str (jsonStringify data)) ]
  rawCands.filterMap (fun o =>
    match o with
    | some v => if jsTruthy v then some (jsToString v) else none
    | none => none)

/-- The regex /\[.*\]/s applied to txt: greedy, so the match runs from the first
bracket that has a closing bracket after it - that is, from the first opening
bracket to the last closing bracket of the whole string, provided the latter comes
later; no match otherwise. -/
def extractBrackets (s : String) : Option String :=
  let cs := s.data
  match cs.indexOf? '[', cs.reverse.indexOf? ']' with
  | some i, some jr =>
      let j := cs.length - 1 - jr
      if i < j then some (String.mk ((cs.drop i).take (j - i + 1))) else none
  | _, _ => none

/-- One iteration of the candidate loop: JSON.parse the text; accept an array, or a
truthy object with an array under results; on a parse error (and only then) fall
back to the bracket-substring extraction, accepting only a direct array. -/
def tryParseCandidate (txt : String) : Option (List JSVal) :=
  match jsonParse txt with
  | some (.arr l) => some l
  | some parsed =>
      if jsTruthy parsed then
        match getField parsed "results" with
        | some (.arr r) => some r
        | _ => none
      else none
  | none =>
      match extractBrackets txt with
      | some sub =>
          match jsonParse sub with
          | some (.arr l) => some l
          | _ => none
      | none => none

/-- The error message thrown when no strategy extracts an array. -/
def geminiErrMsg : String :=
  "Unexpected Gemini/Vertex response format - adapt server call to match the endpoint schema."

/-- The Array.isArray(data.results) probe: the array under the results key, when
there is one. -/
def resultsArrayOf (data : JSVal) : Option (List JSVal) :=
  match getField data "results" with
  | some (.arr r) => some r
  | _ => none

/-- The normalizer inside callGemini: return the body itself if it is an array,
else the array under results, else the first candidate text some strategy parses;
raise the explicit error when everything fails. -/
def callGeminiExtract (data : JSVal) : Except String (List JSVal) :=
  match data with
  | .arr l => .ok l
  | data =>
      match resultsArrayOf data with
      | some r => .ok r
      | none =>
          match (textCandidates data).findSome? tryParseCandidate with
          | some l => .ok l
          | none => .error geminiErrMsg

/-- The POST /api/gemini-search route around callGemini (src/server.js lines
263-273): 200 with the results on success, 502 on a normalizer error. -/
def geminiSearchRoute (data : JSVal) : Nat × Option (List JSVal) :=
  match callGeminiExtract data with
  | .ok r => (200, some r)
  | .error _ => (502, none)

/-! ### Helper lemmas -/

/-- A string with no raw angle bracket in it. -/
def AngleFree (s : String) : Prop :=
  ∀ ch ∈ s.data, ch ≠ '<' ∧ ch ≠ '>'

instance (s : String) : Decidable (AngleFree s) := by
  unfold AngleFree
  exact List.decidableBAll _ s.data

/-- Characters of a replChar output come from the replacement or the input. -/
theorem mem_replChar (c : Char) (r : List Char) :
    ∀ l a, a ∈ replChar c r l → a ∈ r ∨ a ∈ l := by
  intro l
  induction l with
  | nil => intro a h; exact absurd h (by simp [replChar])
  | cons x xs ih =>
      intro a h
      simp only [replChar, List.mem_append] at h
      rcases h with h | h
      · by_cases hx : x = c
        · rw [if_pos hx] at h
          exact .inl h
        · rw [if_neg hx] at h
          simp at h
          exact .inr (by simp [h])
      · rcases ih a h with h2 | h2
        · exact .inl h2
        · exact .inr (List.mem_cons_of_mem _ h2)

/-- If the replacement avoids the replaced character, so does the whole output. -/
theorem replChar_not_mem (c : Char) (r : List Char) (hr : c ∉ r) :
    ∀ l, c ∉ replChar c r l := by
  intro l
  induction l with
  | nil => simp [replChar]
  | cons x xs ih =>
      simp only [replChar, List.mem_append]
      rintro (h | h)
      · by_cases hx : x = c
        · rw [if_pos hx] at h
          exact hr h
        · rw [if_neg hx] at h
          simp at h
          exact hx (h.symm)
      · exact ih h

/-- The encoding sanitizer leaves no raw angle bracket behind. -/
theorem sanitizeEncode_angleFree (s : String) : AngleFree (sanitizeEncode s) := by
  intro ch hch
  unfold sanitizeEncode at hch
  simp only [String.data] at hch
  constructor
  · intro heq
    subst heq
    have h1 : '<' ∉ replChar '<' "&lt;".data s.data :=
      replChar_not_mem '<' "&lt;".data (by decide) s.data
    rcases mem_replChar '>' "&gt;".data _ _ hch with h | h
    · exact absurd h (by decide)
    · exact h1 h
  · intro heq
    subst heq
    exact replChar_not_mem '>' "&gt;".data (by decide) _ hch

/-- Length accounting for the delete filter: kept plus removed is the total. -/
theorem filterNe_length_add (id : String) :
    ∀ l : List Comment,
      (l.filter (fun c => c.id ≠ id)).length + l.countP (fun c => c.id = id) = l.length := by
  intro l
  induction l with
  | nil => simp
  | cons c cs ih =>
      by_cases h : c.id = id
      · simp [List.filter_cons, List.countP_cons, h, decide_not] at ih ⊢
        omega
      · simp [List.filter_cons, List.countP_cons, h, decide_not] at ih ⊢
        omega

/-- A thrown result decomposes the attempt outcomes into a prefix of conflicts, the
non-conflict error that was rethrown, and attempts that never ran. -/
theorem saveGo_thrown (n : Nat) (e : GhErr) :
    ∀ (l : List AttemptOut) (made : Nat), saveGo made l = .thrown n e →
      ∃ pre rest, l = pre ++ AttemptOut.err e :: rest ∧
        (∀ x ∈ pre, isConflO x = true) ∧ isConflictB e = false ∧
        n = made + pre.length + 1 := by
  intro l
  induction l with
  | nil => intro made h; exact absurd h (by simp [saveGo])
  | cons o rest ih =>
      intro made h
      match o with
      | .ok => exact absurd h (by simp [saveGo])
      | .err e0 =>
          by_cases hc : isConflictB e0 = true
          · rw [saveGo, if_pos hc] at h
            obtain ⟨pre, rest2, hdec, hpre, hnc, hn⟩ := ih (made + 1) h
            refine ⟨.err e0 :: pre, rest2, by rw [hdec]; rfl, ?_, hnc, ?_⟩
            · intro x hx
              rcases List.mem_cons.mp hx with hx | hx
              · rw [hx]; exact hc
              · exact hpre x hx
            · simp only [List.length_cons]; omega
          · rw [saveGo, if_neg hc] at h
            injection h with h1 h2
            refine ⟨[], rest, ?_, by simp, ?_, by simp [h1]⟩
            · rw [h2]; rfl
            · rw [← h2]; exact Bool.eq_false_iff.mpr hc

/-- A successful result decomposes the attempts into a prefix of conflicts followed
by the succeeding attempt. -/
theorem saveGo_success (n : Nat) :
    ∀ (l : List AttemptOut) (made : Nat), saveGo made l = .success n →
      ∃ pre rest, l = pre ++ AttemptOut.ok :: rest ∧
        (∀ x ∈ pre, isConflO x = true) ∧ n = made + pre.length + 1 := by
  intro l
  induction l with
  | nil => intro made h; exact absurd h (by simp [saveGo])
  | cons o rest ih =>
      intro made h
      match o with
      | .ok =>
          rw [saveGo] at h
          injection h with h1
          exact ⟨[], rest, rfl, by simp, by simp [h1]⟩
      | .err e0 =>
          by_cases hc : isConflictB e0 = true
          · rw [saveGo, if_pos hc] at h
            obtain ⟨pre, rest2, hdec, hpre, hn⟩ := ih (made + 1) h
            refine ⟨.err e0 :: pre, rest2, by rw [hdec]; rfl, ?_, ?_⟩
            · intro x hx
              rcases List.mem_cons.mp hx with hx | hx
              · rw [hx]; exact hc
              · exact hpre x hx
            · simp only [List.length_cons]; omega
          · rw [saveGo, if_neg hc] at h
            exact absurd h (by simp)

/-- The loop exhausts its budget exactly when every attempt ends in a conflict. -/
theorem saveGo_exhausted :
    ∀ (l : List AttemptOut) (made : Nat),
      saveGo made l = .exhausted ↔ ∀ x ∈ l, isConflO x = true := by
  intro l
  induction l with
  | nil => intro made; simp [saveGo]
  | cons o rest ih =>
      intro made
      match o with
      | .ok =>
          simp only [saveGo]
          constructor
          · intro h; exact absurd h (by simp)
          · intro h
            have := h .ok (List.mem_cons_self _ _)
            exact absurd this (by simp [isConflO])
      | .err e0 =>
          by_cases hc : isConflictB e0 = true
          · rw [saveGo, if_pos hc]
            rw [ih (made + 1)]
            constructor
            · intro h x hx
              rcases List.mem_cons.mp hx with hx | hx
              · rw [hx]; exact hc
              · exact h x hx
            · intro h x hx
              exact h x (List.mem_cons_of_mem _ hx)
          · rw [saveGo, if_neg hc]
            constructor
            · intro h; exact absurd h (by simp)
            · intro h
              have := h (.err e0) (List.mem_cons_self _ _)
              simp only [isConflO] at this
              exact absurd this hc

/-- The sleep trace over a conflict prefix terminated by a non-conflict outcome:
one linear-backoff sleep per conflicting attempt. -/
theorem sleepsGo_prefix :
    ∀ (pre : List AttemptOut) (a : Nat) (o : AttemptOut) (rest : List AttemptOut),
      (∀ x ∈ pre, isConflO x = true) → isConflO o = false →
      sleepsGo a (pre ++ o :: rest) = (List.range pre.length).map (fun k => 200 * (a + k + 1)) := by
  intro pre
  induction pre with
  | nil =>
      intro a o rest _ ho
      match o with
      | .ok => simp [sleepsGo]
      | .err e0 =>
          simp only [isConflO] at ho
          simp [sleepsGo, ho]
  | cons x pre2 ih =>
      intro a o rest hpre ho
      match x with
      | .ok =>
          have := hpre .ok (List.mem_cons_self _ _)
          exact absurd this (by simp [isConflO])
      | .err e0 =>
          have hc : isConflictB e0 = true := hpre (.err e0) (List.mem_cons_self _ _)
          have hrest : ∀ x ∈ pre2, isConflO x = true :=
            fun x hx => hpre x (List.mem_cons_of_mem _ hx)
          simp only [List.cons_append, sleepsGo, if_pos hc, List.append_eq]
          rw [ih (a + 1) o rest hrest ho]
          simp only [List.length_cons, List.range_succ_eq_map, List.map_cons, List.map_map]
          congr 1
          apply List.map_congr_left
          intro k _
          simp only [Function.comp]
          omega

/-- The sleep trace when every attempt conflicts: one sleep per attempt. -/
theorem sleepsGo_allConflict :
    ∀ (l : List AttemptOut) (a : Nat), (∀ x ∈ l, isConflO x = true) →
      sleepsGo a l = (List.range l.length).map (fun k => 200 * (a + k + 1)) := by
  intro l
  induction l with
  | nil => intro a _; simp [sleepsGo]
  | cons x rest ih =>
      intro a h
      match x with
      | .ok =>
          have := h .ok (List.mem_cons_self _ _)
          exact absurd this (by simp [isConflO])
      | .err e0 =>
          have hc : isConflictB e0 = true := h (.err e0) (List.mem_cons_self _ _)
          simp only [sleepsGo, if_pos hc]
          rw [ih (a + 1) (fun x hx => h x (List.mem_cons_of_mem _ hx))]
          simp only [List.length_cons, List.range_succ_eq_map, List.map_cons, List.map_map]
          congr 1
          apply List.map_congr_left
          intro k _
          simp only [Function.comp]
          omega

/-! ### Claim theorems -/

/-- C1: the claim requires every attempt of the remote write path to re-derive its
candidate from the collection read freshly at the start of that same attempt.  The
code computes the candidate once in the handler and each attempt of
saveCommentsToGitHub re-reads only the sha.  Concretely: the store holds the empty
list; the POST handler reads it and derives its candidate from the empty list; a
concurrent writer then commits the comment cB; the save attempt reads the fresh
state (list [cB], new sha) yet writes the stale candidate with that fresh sha and
succeeds, so the stored collection loses cB, and the written candidate differs
from the mutation applied to the collection read at that attempt. -/
theorem saveCommentsToGitHub_staleCandidate :
    readCommentsFromGitHub (Remote.mk (some (GhFile.mk [] 0)) 1) = .ok ([], some 0) ∧
    githubPutFile (Remote.mk (some (GhFile.mk [] 0)) 1)
        [Comment.mk "srv_50" "bea" "hello" "2026-03-01T00:00:00.000Z"] (some 0)
      = .ok (Remote.mk
          (some (GhFile.mk [Comment.mk "srv_50" "bea" "hello" "2026-03-01T00:00:00.000Z"] 1)) 2) ∧
    readCommentsFromGitHub (Remote.mk
        (some (GhFile.mk [Comment.mk "srv_50" "bea" "hello" "2026-03-01T00:00:00.000Z"] 1)) 2)
      = .ok ([Comment.mk "srv_50" "bea" "hello" "2026-03-01T00:00:00.000Z"], some 1) ∧
    saveAttempt (Remote.mk
        (some (GhFile.mk [Comment.mk "srv_50" "bea" "hello" "2026-03-01T00:00:00.000Z"] 1)) 2)
        (postMutation [] 100 "2026-03-01T00:00:01.000Z" "al" "hi")
      = .ok (Remote.mk
          (some (GhFile.mk (postMutation [] 100 "2026-03-01T00:00:01.000Z" "al" "hi") 2)) 3) ∧
    decide (postMutation [] 100 "2026-03-01T00:00:01.000Z" "al" "hi" =
        postMutation [Comment.mk "srv_50" "bea" "hello" "2026-03-01T00:00:00.000Z"]
          100 "2026-03-01T00:00:01.000Z" "al" "hi") = false ∧
    (postMutation [] 100 "2026-03-01T00:00:01.000Z" "al" "hi").contains
        (Comment.mk "srv_50" "bea" "hello" "2026-03-01T00:00:00.000Z") = false :=
  ⟨rfl, rfl, rfl, rfl, by decide, by decide⟩

/-- C3: the claim says that with the backing file absent and a write credential
configured, initialization creates the file and reports created true.  Because
readCommentsFromGitHub converts a 404 into the empty list with a null sha, the 404
branch of initializeCommentsFileIfMissing is unreachable: on an absent file with
the token configured, the function reports created false with reason file exists
and performs no write, leaving the remote without the file. -/
theorem initializeComments_neverCreates :
    initializeCommentsFileIfMissing true (Remote.mk none 0)
      = (Remote.mk none 0, InitResult.mk false "file exists") ∧
    (initializeCommentsFileIfMissing true (Remote.mk none 0)).1.file = none :=
  ⟨rfl, rfl⟩

/-- C4: the claim requires the server-assigned id to be distinct from every id
already in the collection.  The id is srv_ concatenated with the clock millisecond
value, with no uniqueness check: posted at millisecond 100 against a collection
already holding a record with id srv_100, the new record receives the same id, so
the stored id list has a duplicate. -/
theorem postComments_idCollision :
    postMutation [Comment.mk "srv_100" "carol" "hey" "2026-03-01T00:00:00.000Z"]
        100 "2026-03-01T00:00:01.000Z" "dave" "yo"
      = [Comment.mk "srv_100" "dave" "yo" "2026-03-01T00:00:01.000Z",
         Comment.mk "srv_100" "carol" "hey" "2026-03-01T00:00:00.000Z"] ∧
    (mkServerItem 100 "2026-03-01T00:00:01.000Z" "dave" "yo").id = "srv_100" ∧
    decide ((List.map (fun c => c.id)
        (postMutation [Comment.mk "srv_100" "carol" "hey" "2026-03-01T00:00:00.000Z"]
          100 "2026-03-01T00:00:01.000Z" "dave" "yo")).Nodup) = false :=
  ⟨rfl, rfl, by decide⟩

/-- C5: the claim says the GET response is sorted by created_at descending
regardless of storage order.  The comparator subtracts ISO-8601 strings, which
coerce to NaN, and SortCompare treats a NaN comparator result as zero, so the
stable sort returns the stored order unchanged: a store holding the older comment
first is returned older-first, not newest-first. -/
theorem getComments_notSortedByCreatedAt :
    getCommentsResponse
        [Comment.mk "1" "amy" "x" "2026-03-01T00:00:00.000Z",
         Comment.mk "2" "bob" "y" "2026-03-02T00:00:00.000Z"]
      = [Comment.mk "1" "amy" "x" "2026-03-01T00:00:00.000Z",
         Comment.mk "2" "bob" "y" "2026-03-02T00:00:00.000Z"] ∧
    decide (SortedByCreatedAtDesc
        [Comment.mk "1" "amy" "x" "2026-03-01T00:00:00.000Z",
         Comment.mk "2" "bob" "y" "2026-03-02T00:00:00.000Z"]) = false :=
  ⟨rfl, by decide⟩

/-- C6: deleting an id present exactly once yields the write of a collection one
record shorter with no record carrying that id; deleting an absent id performs no
write and reports not-found (the none result, the 404 branch). -/
theorem deleteById_spec (current : List Comment) (id : String) :
    (current.countP (fun c => c.id = id) = 1 →
      deleteHandler current id = some (current.filter (fun c => c.id ≠ id)) ∧
      (current.filter (fun c => c.id ≠ id)).length + 1 = current.length ∧
      ∀ c ∈ current.filter (fun c => c.id ≠ id), c.id ≠ id) ∧
    ((∀ c ∈ current, c.id ≠ id) → deleteHandler current id = none) := by
  constructor
  · intro h1
    have hlen := filterNe_length_add id current
    rw [h1] at hlen
    refine ⟨?_, hlen, ?_⟩
    · unfold deleteHandler
      rw [if_neg (by omega)]
    · intro c hc
      have hm := List.mem_filter.mp hc
      simpa using hm.2
  · intro h2
    have hself : current.filter (fun c => c.id ≠ id) = current := by
      apply List.filter_eq_self.mpr
      intro a ha
      simpa using h2 a ha
    unfold deleteHandler
    rw [hself, if_pos rfl]

/-- C6 witness: a one-record collection; deleting its id writes the empty list,
deleting a different id is a not-found with no write. -/
theorem deleteById_spec_witness :
    List.countP (fun c => c.id = "x") [Comment.mk "x" "nm" "tx" "ts"] = 1 ∧
    deleteHandler [Comment.mk "x" "nm" "tx" "ts"] "x" = some [] ∧
    (∀ c ∈ [Comment.mk "x" "nm" "tx" "ts"], c.id ≠ "y") ∧
    deleteHandler [Comment.mk "x" "nm" "tx" "ts"] "y" = none := by
  have h1 := (deleteById_spec [Comment.mk "x" "nm" "tx" "ts"] "x").1 (by decide)
  have h2 := (deleteById_spec [Comment.mk "x" "nm" "tx" "ts"] "y").2 (by decide)
  refine ⟨by decide, ?_, by decide, h2⟩
  rw [h1.1]
  rfl

/-- C2: the retry loop of saveCommentsToGitHub, over the outcomes of its four
attempts.  A rethrown error is never a conflict, happens on the first non-conflict
attempt (all earlier attempts conflicted) with at most 4 attempts made, and the
sleeps so far were the linear backoff 200ms times the attempt number.  A success
is likewise preceded only by conflicting attempts with the same backoff trace.
The exhausted-retries error occurs exactly when all four attempts conflict, after
which the sleep trace is 200, 400, 600, 800. -/
theorem saveCommentsToGitHub_retryPolicy (o0 o1 o2 o3 : AttemptOut) :
    (∀ n e, saveCommentsLoop o0 o1 o2 o3 = .thrown n e →
        isConflictB e = false ∧ 1 ≤ n ∧ n ≤ 4 ∧
        [o0, o1, o2, o3][n - 1]? = some (.err e) ∧
        (∀ x ∈ [o0, o1, o2, o3].take (n - 1), isConflO x = true) ∧
        saveSleeps o0 o1 o2 o3 = (List.range (n - 1)).map (fun k => 200 * (k + 1))) ∧
    (∀ n, saveCommentsLoop o0 o1 o2 o3 = .success n →
        1 ≤ n ∧ n ≤ 4 ∧ [o0, o1, o2, o3][n - 1]? = some .ok ∧
        (∀ x ∈ [o0, o1, o2, o3].take (n - 1), isConflO x = true) ∧
        saveSleeps o0 o1 o2 o3 = (List.range (n - 1)).map (fun k => 200 * (k + 1))) ∧
    (saveCommentsLoop o0 o1 o2 o3 = .exhausted ↔ ∀ x ∈ [o0, o1, o2, o3], isConflO x = true) ∧
    (saveCommentsLoop o0 o1 o2 o3 = .exhausted →
        saveSleeps o0 o1 o2 o3 = [200, 400, 600, 800]) := by
  refine ⟨?_, ?_, ?_, ?_⟩
  · intro n e h
    obtain ⟨pre, rest, hdec, hpre, hnc, hn⟩ := saveGo_thrown n e [o0, o1, o2, o3] 0 h
    have hlen : 4 = pre.length + (rest.length + 1) := by
      have h4 := congrArg List.length hdec
      simpa using h4
    have hn1 : n - 1 = pre.length := by omega
    refine ⟨hnc, by omega, by omega, ?_, ?_, ?_⟩
    · rw [hn1, hdec, List.getElem?_append_right (Nat.le_refl _)]
      simp
    · rw [hn1, hdec, List.take_left]
      exact hpre
    · rw [hn1]
      show sleepsGo 0 [o0, o1, o2, o3] = _
      rw [hdec, sleepsGo_prefix pre 0 (.err e) rest hpre (by simp [isConflO, hnc])]
      apply List.map_congr_left
      intro k _
      omega
  · intro n h
    obtain ⟨pre, rest, hdec, hpre, hn⟩ := saveGo_success n [o0, o1, o2, o3] 0 h
    have hlen : 4 = pre.length + (rest.length + 1) := by
      have h4 := congrArg List.length hdec
      simpa using h4
    have hn1 : n - 1 = pre.length := by omega
    refine ⟨by omega, by omega, ?_, ?_, ?_⟩
    · rw [hn1, hdec, List.getElem?_append_right (Nat.le_refl _)]
      simp
    · rw [hn1, hdec, List.take_left]
      exact hpre
    · rw [hn1]
      show sleepsGo 0 [o0, o1, o2, o3] = _
      rw [hdec, sleepsGo_prefix pre 0 .ok rest hpre (by simp [isConflO])]
      apply List.map_congr_left
      intro k _
      omega
  · exact saveGo_exhausted [o0, o1, o2, o3] 0
  · intro h
    have hall := (saveGo_exhausted [o0, o1, o2, o3] 0).mp h
    show sleepsGo 0 [o0, o1, o2, o3] = _
    rw [sleepsGo_allConflict [o0, o1, o2, o3] 0 hall]
    rfl

/-- C2 witness: a 409 conflict on the first attempt followed by a network error
without a response status; the loop backs off 200ms once, retries, and rethrows
the non-conflict error on the second attempt. -/
theorem saveCommentsToGitHub_retryPolicy_witness :
    saveCommentsLoop (.err ⟨some 409⟩) (.err ⟨none⟩) .ok .ok = .thrown 2 ⟨none⟩ ∧
    (isConflictB ⟨none⟩ = false ∧ 1 ≤ 2 ∧ 2 ≤ 4 ∧
      [AttemptOut.err ⟨some 409⟩, .err ⟨none⟩, .ok, .ok][2 - 1]? = some (.err ⟨none⟩) ∧
      (∀ x ∈ [AttemptOut.err ⟨some 409⟩, .err ⟨none⟩, .ok, .ok].take (2 - 1), isConflO x = true) ∧
      saveSleeps (.err ⟨some 409⟩) (.err ⟨none⟩) .ok .ok
        = (List.range (2 - 1)).map (fun k => 200 * (k + 1))) :=
  ⟨by decide,
   (saveCommentsToGitHub_retryPolicy (.err ⟨some 409⟩) (.err ⟨none⟩) .ok .ok).1 2 ⟨none⟩
     (by decide)⟩

/-- C7: the normalizer strategies in priority order with first success winning: an
array body is returned verbatim; otherwise an array under the results key wins;
otherwise the collected text candidates are tried in order, a successful JSON
parse accepting a direct array or an object with a results array and a failed
parse falling back to the first-bracket-to-last-bracket substring (shown on the
free-text example); when no strategy yields an array the normalizer returns the
explicit error, never an empty array, and the route surfaces any normalizer error
as a 502 gateway failure. -/
theorem callGemini_normalizer_spec :
    (∀ l, callGeminiExtract (JSVal.arr l) = .ok l) ∧
    (∀ data r, isArrJS data = false → resultsArrayOf data = some r →
        callGeminiExtract data = .ok r) ∧
    (callGeminiExtract
        (JSVal.obj [("text", JSVal.str "Here you go: [\x7b\"title\":\"Y\"\x7d] thanks")])
      = .ok [JSVal.obj [("title", JSVal.str "Y")]]) ∧
    (∀ data, isArrJS data = false → resultsArrayOf data = none →
        (textCandidates data).findSome? tryParseCandidate = none →
        callGeminiExtract data = .error geminiErrMsg) ∧
    (∀ data e, callGeminiExtract data = .error e → geminiSearchRoute data = (502, none)) ∧
    (geminiSearchRoute (JSVal.obj [("foo", JSVal.str "hi")]) = (502, none)) := by
  refine ⟨fun l => rfl, ?_, rfl, ?_, ?_, rfl⟩
  · intro data r h1 h2
    cases data <;> simp [callGeminiExtract, h2]
    simp [isArrJS] at h1
  · intro data h1 h2 h3
    cases data <;> simp [callGeminiExtract, h2, h3]
    simp [isArrJS] at h1
  · intro data e h
    simp [geminiSearchRoute, h]

/-- C7 witness: the wrapped-results example is extracted by the second strategy,
and a response with no extractable array anywhere raises the explicit error that
the route turns into a 502. -/
theorem callGemini_normalizer_witness :
    (isArrJS (JSVal.obj [("results", JSVal.arr [JSVal.obj [("title", JSVal.str "X")]])]) = false ∧
     resultsArrayOf (JSVal.obj [("results", JSVal.arr [JSVal.obj [("title", JSVal.str "X")]])])
       = some [JSVal.obj [("title", JSVal.str "X")]] ∧
     callGeminiExtract (JSVal.obj [("results", JSVal.arr [JSVal.obj [("title", JSVal.str "X")]])])
       = .ok [JSVal.obj [("title", JSVal.str "X")]]) ∧
    (callGeminiExtract (JSVal.obj [("foo", JSVal.str "hi")]) = .error geminiErrMsg ∧
     geminiSearchRoute (JSVal.obj [("foo", JSVal.str "hi")]) = (502, none)) := by
  constructor
  · exact ⟨rfl, rfl, callGemini_normalizer_spec.2.1 _ _ rfl rfl⟩
  · have h4 := callGemini_normalizer_spec.2.2.2.1 (JSVal.obj [("foo", JSVal.str "hi")]) rfl rfl rfl
    exact ⟨h4, callGemini_normalizer_spec.2.2.2.2.1 _ geminiErrMsg h4⟩

/-- Case analysis of the part_001 validation: it accepts exactly the trimmed
non-empty inputs within the 100/1000 bounds and otherwise produces an error. -/
theorem localPostValidate_cases (rawName rawText : String) :
    (localPostValidate rawName rawText = .ok (jsTrim rawName, jsTrim rawText) ∧
      jsTrim rawName ≠ "" ∧ jsTrim rawText ≠ "" ∧
      (jsTrim rawName).length ≤ 100 ∧ (jsTrim rawText).length ≤ 1000) ∨
    ((∃ msg, localPostValidate rawName rawText = .error msg) ∧
      ¬(jsTrim rawName ≠ "" ∧ jsTrim rawText ≠ "" ∧
        (jsTrim rawName).length ≤ 100 ∧ (jsTrim rawText).length ≤ 1000)) := by
  unfold localPostValidate
  dsimp only
  split_ifs with h1 h2 h3
  · right
    exact ⟨⟨_, rfl⟩, by tauto⟩
  · right
    refine ⟨⟨_, rfl⟩, ?_⟩
    rintro ⟨_, _, hle, _⟩
    omega
  · right
    refine ⟨⟨_, rfl⟩, ?_⟩
    rintro ⟨_, _, _, hle⟩
    omega
  · left
    push_neg at h1
    exact ⟨rfl, h1.1, h1.2, by omega, by omega⟩

/-- C8 counterexample: the claim covers every POST /api/comments handler, but the
GitHub-backed handler of src/server.js has no length check: a 101-character name
passes its validation, the store is consulted and the oversized name is stored,
with a 201 response. -/
theorem postComments_lengthUnchecked_gh :
    (jsTrim (String.mk (List.replicate 101 'a'))).length = 101 ∧
    (ghPostHandler (String.mk (List.replicate 101 'a')) "hi" [] 100 "t").1 = 201 ∧
    (ghPostHandler (String.mk (List.replicate 101 'a')) "hi" [] 100 "t").2
      = [Comment.mk "srv_100" (String.mk (List.replicate 101 'a')) "hi" "t"] := by
  refine ⟨by decide, by decide, by decide⟩

/-- C8 amended: in the file-backed variant of src/unnamed/part_001 the POST
handler accepts a request exactly when the trimmed name and text are non-empty and
within the 100/1000 bounds (so names of exactly 100 and texts of exactly 1000
characters are accepted); a rejected request gets a 400 with the store untouched;
and the accept/reject decision is independent of the store, which is only
consulted after validation passes.  The GitHub-backed src/server.js handler checks
only non-emptiness. -/
theorem postComments_validationBounds_local (rawName rawText : String)
    (store : List Comment) (nowMs : Nat) (nowIso : String) :
    ((localPostHandler rawName rawText store nowMs nowIso).1 = 201 ↔
      jsTrim rawName ≠ "" ∧ jsTrim rawText ≠ "" ∧
      (jsTrim rawName).length ≤ 100 ∧ (jsTrim rawText).length ≤ 1000) ∧
    ((localPostHandler rawName rawText store nowMs nowIso).1 ≠ 201 →
      (localPostHandler rawName rawText store nowMs nowIso).1 = 400 ∧
      (localPostHandler rawName rawText store nowMs nowIso).2 = store) ∧
    (∀ store2 : List Comment,
      (localPostHandler rawName rawText store nowMs nowIso).1
        = (localPostHandler rawName rawText store2 nowMs nowIso).1) := by
  rcases localPostValidate_cases rawName rawText with ⟨hok, hcond⟩ | ⟨⟨msg, herr⟩, hcond⟩
  · refine ⟨?_, ?_, fun store2 => ?_⟩
    · constructor
      · intro _
        exact hcond
      · intro _
        simp [localPostHandler, hok]
    · intro h
      exact absurd (by simp [localPostHandler, hok]) h
    · simp [localPostHandler, hok]
  · refine ⟨?_, ?_, fun store2 => ?_⟩
    · constructor
      · intro h
        simp [localPostHandler, herr] at h
      · intro h
        exact absurd h hcond
    · intro _
      constructor <;> simp [localPostHandler, herr]
    · simp [localPostHandler, herr]

/-- C8 witness: a name of exactly 100 characters with a text of exactly 1000
characters is accepted by the part_001 handler. -/
theorem postComments_validationBounds_local_witness :
    (jsTrim (String.mk (List.replicate 100 'a')) ≠ "" ∧
     jsTrim (String.mk (List.replicate 1000 'b')) ≠ "" ∧
     (jsTrim (String.mk (List.replicate 100 'a'))).length ≤ 100 ∧
     (jsTrim (String.mk (List.replicate 1000 'b'))).length ≤ 1000) ∧
    (localPostHandler (String.mk (List.replicate 100 'a'))
        (String.mk (List.replicate 1000 'b')) [] 5 "t").1 = 201 :=
  ⟨by decide,
   (postComments_validationBounds_local (String.mk (List.replicate 100 'a'))
      (String.mk (List.replicate 1000 'b')) [] 5 "t").1.mpr (by decide)⟩

/-- C9 counterexample: the claim covers every POST /api/comments handler, but the
sanitize of the first src/server.js variant (and part_000) only strips the
script-tag prefixes; a comment posted there with markup in its text is stored with
its raw angle brackets. -/
theorem sanitize_scriptStrip_keepsAngles :
    postMutationV1 [] 100 "t" "bob" "<b>hi</b>"
      = [Comment.mk "srv_100" "bob" "<b>hi</b>" "t"] ∧
    '<' ∈ (mkServerItemV1 100 "t" "bob" "<b>hi</b>").text.data ∧
    '>' ∈ (mkServerItemV1 100 "t" "bob" "<b>hi</b>").text.data :=
  ⟨by decide, by decide, by decide⟩

/-- C9 amended: the encoding sanitizer used by src/unnamed/part_001 and the second
src/server.js variant leaves no raw angle bracket, so every record those POST
handlers add to the collection is angle-free in name and text, every record they
keep was already in the stored collection, and the delete handler only keeps
existing records - hence the angle-free invariant holds for every record those
variants ever store.  The first src/server.js and part_000 variant only strips
script-tag prefixes and does not satisfy the claim. -/
theorem sanitizeEncode_storage_angleFree (rawName rawText : String) (store : List Comment)
    (nowMs : Nat) (nowIso : String) (id : String) :
    AngleFree (sanitizeEncode rawName) ∧
    (∀ c ∈ (localPostHandler rawName rawText store nowMs nowIso).2,
        c ∈ store ∨ (AngleFree c.name ∧ AngleFree c.text)) ∧
    (∀ c ∈ (ghPostHandler rawName rawText store nowMs nowIso).2,
        c ∈ store ∨ (AngleFree c.name ∧ AngleFree c.text)) ∧
    (∀ next, deleteHandler store id = some next → ∀ c ∈ next, c ∈ store) := by
  refine ⟨sanitizeEncode_angleFree rawName, ?_, ?_, ?_⟩
  · intro c hc
    rcases hv : localPostValidate rawName rawText with msg | p
    · rw [localPostHandler, hv] at hc
      exact .inl hc
    · rw [localPostHandler, hv] at hc
      rcases List.mem_cons.mp hc with hc | hc
      · right
        rw [hc]
        exact ⟨sanitizeEncode_angleFree _, sanitizeEncode_angleFree _⟩
      · exact .inl hc
  · intro c hc
    rcases hv : ghPostValidate rawName rawText with _ | p
    · rw [ghPostHandler, hv] at hc
      exact .inl hc
    · rw [ghPostHandler, hv] at hc
      have hc2 : c ∈ mkServerItem nowMs nowIso p.1 p.2 :: store :=
        List.take_subset 2000 _ hc
      rcases List.mem_cons.mp hc2 with hc3 | hc3
      · right
        rw [hc3]
        exact ⟨sanitizeEncode_angleFree _, sanitizeEncode_angleFree _⟩
      · exact .inl hc3
  · intro next hnext c hc
    unfold deleteHandler at hnext
    by_cases hlen : (store.filter (fun c => c.id ≠ id)).length = store.length
    · rw [if_pos hlen] at hnext
      exact absurd hnext (by simp)
    · rw [if_neg hlen] at hnext
      injection hnext with hnext
      rw [← hnext] at hc
      exact (List.mem_filter.mp hc).1

/-- C9 amended witness: posting markup-laden name and text through the part_001
handler stores the entity-encoded forms, which are angle-free. -/
theorem sanitizeEncode_storage_angleFree_witness :
    AngleFree "&lt;x&gt;" ∧ AngleFree "a&lt;b" := by
  have h := (sanitizeEncode_storage_angleFree "<x>" "a<b" [] 5 "t" "z").2.1
      (mkLocalItem 5 "t" "<x>" "a<b") (by decide)
  rcases h with h | h
  · exact absurd h (List.not_mem_nil _)
  · exact h

/-- C10: the local-file saveComments installs the new list into the in-memory
cache and never surfaces an error: even when the disk write fails (diskOk false,
the catch branch that only logs), the call returns no error, the cache holds the
new list while the file keeps its old contents, and the enclosing POST and DELETE
handlers still answer 201 and 204. -/
theorem saveComments_neverFails (st : LocalState) (newList : List Comment) (diskOk : Bool)
    (rawName rawText nowIso : String) (nowMs : Nat) (id : String) :
    ((saveComments st newList diskOk).2 = none ∧
     (saveComments st newList diskOk).1.cache = some newList ∧
     (saveComments st newList false).1.file = st.file) ∧
    (∀ name text, localPostValidate rawName rawText = .ok (name, text) →
      (localPostFull rawName rawText st false nowMs nowIso).1 = 201 ∧
      (localPostFull rawName rawText st false nowMs nowIso).2.file = st.file ∧
      (localPostFull rawName rawText st false nowMs nowIso).2.cache
        = some (mkLocalItem nowMs nowIso name text :: loadComments st)) ∧
    (((loadComments st).filter (fun c => c.id ≠ id)).length ≠ (loadComments st).length →
      (localDeleteFull id st false).1 = 204 ∧
      (localDeleteFull id st false).2.file = st.file ∧
      (localDeleteFull id st false).2.cache
        = some ((loadComments st).filter (fun c => c.id ≠ id))) := by
  refine ⟨?_, ?_, ?_⟩
  · cases diskOk <;> exact ⟨rfl, rfl, rfl⟩
  · intro name text hv
    simp [localPostFull, hv, saveComments]
  · intro hlen
    unfold localDeleteFull
    dsimp only
    rw [if_neg hlen]
    exact ⟨rfl, rfl, rfl⟩

/-- C10 witness: a valid post against an empty store with a failing disk write
still answers 201, caches the new record, and leaves the file contents alone. -/
theorem saveComments_neverFails_witness :
    localPostValidate "al" "hi" = .ok ("al", "hi") ∧
    ((localPostFull "al" "hi" (LocalState.mk none []) false 5 "t").1 = 201 ∧
     (localPostFull "al" "hi" (LocalState.mk none []) false 5 "t").2.file = [] ∧
     (localPostFull "al" "hi" (LocalState.mk none []) false 5 "t").2.cache
       = some (mkLocalItem 5 "t" "al" "hi" :: loadComments (LocalState.mk none []))) :=
  ⟨rfl,
   (saveComments_neverFails (LocalState.mk none []) [] false "al" "hi" "t" 5 "q").2.1
     "al" "hi" rfl⟩

end SpringBreak
